import Mathlib

/-!
Verification of the request-batching and completion-synchronization core of
bergamot-translator (src/translator/request.h): the Request completion
barrier, RequestSentence views, and the Batch container.

Only the header request.h is available as source; it fixes the data model,
the inline Batch members (the default constructor calling reset, poison,
isPoison, size, sentences) and the documented contracts.  The out-of-line
member bodies (request.cpp) are not in the source tree, so those operations
are modelled from the spec, as marked in each doc comment.

Modelling conventions:
 - Word (a vocabulary id) is a Nat; a Segment is a list of Words; a
   TokenRanges entry (a string_view into the source) is a pair of offsets.
 - Ptr<History> results are an abstract type alpha.
 - std::promise<Response> is a single-fire slot: an Option (Response alpha)
   field that finalize fills; finalizeCount instruments how many times
   completeRequest ran, so exactly-once is statable.
 - std::atomic<int> counter decrements are modelled as the sequential
   interleaving of the completion calls: each call stores its history and
   then decrements; an arbitrary interleaving of threads is an arbitrary
   order of the calls.
 - Ptr<Request> sharing is modelled by a heap: requests live at Nat
   addresses and a RequestSentence holds the address of its Request.
-/

namespace Bergamot

/-- A vocabulary token id (marian Word). -/
abbrev Word := Nat

/-- A Segment is an ordered sequence of token ids (marian Words). -/
abbrev Segment := List Word

/-- Segments: vector of Segment. -/
abbrev Segments := List Segment

/-- A string_view into the source text, modelled as (begin, end) offsets. -/
abbrev TokenRange := Nat × Nat

/-- TokenRanges: the views into the source corresponding to one segment. -/
abbrev TokenRanges := List TokenRange

/-- Modelled from the spec: the assembled Response (response.h is not in the
source tree).  Finalize assembles it from the source text, the segments,
the alignment ranges and the per-segment result slots, in stored index
order. -/
structure Response (α : Type) where
  source_ : String
  segments_ : Segments
  sourceTokenRanges_ : List TokenRanges
  histories_ : List (Option α)
deriving Repr, DecidableEq

/-- The Request of request.h: the source text, its segments, the alignment
ranges, one result slot per segment, the atomic outstanding counter and the
single-fire response promise.  finalizeCount instruments the number of
completeRequest invocations (a second set_value on the promise would throw,
so the code relies on completeRequest running at most once). -/
structure Request (α : Type) where
  Id_ : Nat
  lineNumberBegin_ : Int
  source_ : String
  segments_ : Segments
  sourceTokenRanges_ : List TokenRanges
  histories_ : List (Option α)
  counter_ : Int
  response_ : Option (Response α)
  finalizeCount : Nat
deriving Repr, DecidableEq

namespace Request

/-- Modelled from the spec (constructor body is in the missing request.cpp):
a new Request with outstanding-count = number of segments, empty result
slots and a pending promise; fails if the number of segments differs from
the number of alignment ranges. -/
def construct (Id : Nat) (lineNumberBegin : Int) (source : String)
    (segments : Segments) (sourceTokenRanges : List TokenRanges) :
    Option (Request α) :=
  if segments.length = sourceTokenRanges.length then
    some { Id_ := Id
           lineNumberBegin_ := lineNumberBegin
           source_ := source
           segments_ := segments
           sourceTokenRanges_ := sourceTokenRanges
           histories_ := List.replicate segments.length none
           counter_ := (segments.length : Int)
           response_ := none
           finalizeCount := 0 }
  else
    none

/-- numSegments(): number of segments in the request. -/
def numSegments (r : Request α) : Nat :=
  r.segments_.length

/-- lineNumberBegin() accessor. -/
def lineNumberBegin (r : Request α) : Int :=
  r.lineNumberBegin_

/-- Modelled from the spec (body in the missing request.cpp):
segmentTokens(index) returns the token count of the segment at index; an
out-of-range index is a fatal programming error, modelled as none. -/
def segmentTokens (r : Request α) (index : Nat) : Option Nat :=
  match r.segments_[index]? with
  | some segment => some segment.length
  | none => none

/-- Modelled from the spec (body in the missing request.cpp):
getSegment(index) returns the segment at index; out-of-range is fatal,
modelled as none. -/
def getSegment (r : Request α) (index : Nat) : Option Segment :=
  r.segments_[index]?

/-- Modelled from the spec (body in the missing request.cpp):
completeRequest assembles a Response from the source text, segments,
alignment ranges and the result slots, and fulfills the promise with it. -/
def completeRequest (r : Request α) : Request α :=
  { r with
    response_ := some { source_ := r.source_
                        segments_ := r.segments_
                        sourceTokenRanges_ := r.sourceTokenRanges_
                        histories_ := r.histories_ }
    finalizeCount := r.finalizeCount + 1 }

/-- Modelled from the spec (body in the missing request.cpp):
processHistory(index, history) stores history into slot index, then
atomically decrements the outstanding counter; the call whose decrement
observes zero runs completeRequest. -/
def processHistory (r : Request α) (index : Nat) (history : α) : Request α :=
  let stored : Request α := { r with histories_ := r.histories_.set index (some history) }
  let decremented : Request α := { stored with counter_ := stored.counter_ - 1 }
  if decremented.counter_ = 0 then decremented.completeRequest else decremented

/-- A sequence of completion calls (index, history), applied in order; an
arbitrary thread interleaving of single completions is an arbitrary order
of this list. -/
def processAll (r : Request α) (calls : List (Nat × α)) : Request α :=
  calls.foldl (fun acc c => acc.processHistory c.1 c.2) r

/-- Modelled from the spec (body in the missing request.cpp): the priority
order on Requests, primarily by submission id, ties broken by the stable
secondary key (the starting line number, assigned in insertion sequence). -/
def lt (a b : Request α) : Bool :=
  a.Id_ < b.Id_ || (a.Id_ == b.Id_ && a.lineNumberBegin_ < b.lineNumberBegin_)

end Request

/-- RequestSentence: a view into one segment of a Request; index_ is the
segment index and request_ the Ptr<Request>, modelled as a heap address. -/
structure RequestSentence where
  index_ : Nat
  request_ : Nat
deriving Repr, DecidableEq

/-- The shared-ownership heap: the Request living at each address. -/
abbrev Heap (α : Type) := Nat → Request α

namespace RequestSentence

/-- Modelled from the spec (body in the missing request.cpp):
numTokens() delegates to the owning request's segmentTokens(index). -/
def numTokens (s : RequestSentence) (heap : Heap α) : Option Nat :=
  (heap s.request_).segmentTokens s.index_

/-- Modelled from the spec (body in the missing request.cpp):
lineNumber() is the owning request's starting line plus the index. -/
def lineNumber (s : RequestSentence) (heap : Heap α) : Int :=
  (heap s.request_).lineNumberBegin_ + (s.index_ : Int)

/-- Modelled from the spec (body in the missing request.cpp):
getUnderlyingSegment() delegates to the owning request's getSegment. -/
def getUnderlyingSegment (s : RequestSentence) (heap : Heap α) : Option Segment :=
  (heap s.request_).getSegment s.index_

/-- Modelled from the spec (body in the missing request.cpp):
completeSentence(history) forwards to the owning request's
processHistory(index, history), updating the heap at the request address. -/
def completeSentence (s : RequestSentence) (history : α) (heap : Heap α) : Heap α :=
  Function.update heap s.request_ ((heap s.request_).processHistory s.index_ history)

/-- Modelled from the spec (body in the missing request.cpp): ordering on
RequestSentences delegates to the owning Requests' order; for the same
request (pointer equality) it compares by segment index. -/
def lt (heap : Heap α) (a b : RequestSentence) : Bool :=
  if a.request_ = b.request_ then a.index_ < b.index_
  else Request.lt (heap a.request_) (heap b.request_)

end RequestSentence

/-- RequestSentences: vector of RequestSentence. -/
abbrev RequestSentences := List RequestSentence

/-- Batch of request.h: a batch identifier and the sentence views it holds.
Id_ = -1 : poison, 0 : empty/building, greater than 0 : sealed legal batch. -/
structure Batch where
  Id_ : Int
  sentences_ : RequestSentences
deriving Repr, DecidableEq

namespace Batch

/-- Modelled from the spec (body in the missing request.cpp): reset()
clears the sentence list and sets the identifier back to 0. -/
def reset (_ : Batch) : Batch :=
  { Id_ := 0, sentences_ := [] }

/-- From the source (inline): the default constructor Batch() { reset(); },
i.e. a reset of a batch whose fields are not otherwise initialized. -/
def new : Batch :=
  Batch.reset { Id_ := 0, sentences_ := [] }

/-- From the source (inline): Batch::poison() default-constructs a Batch
and sets Id_ = -1. -/
def poison : Batch :=
  { Batch.new with Id_ := -1 }

/-- From the source (inline): isPoison() returns (Id_ == -1). -/
def isPoison (b : Batch) : Bool :=
  b.Id_ == -1

/-- From the source (inline): size() returns sentences_.size(). -/
def size (b : Batch) : Nat :=
  b.sentences_.length

/-- From the source (inline): sentences() returns the held views. -/
def sentences (b : Batch) : RequestSentences :=
  b.sentences_

/-- Modelled from the spec (body in the missing request.cpp): add(sentence)
appends a RequestSentence to the batch. -/
def add (b : Batch) (sentence : RequestSentence) : Batch :=
  { b with sentences_ := b.sentences_ ++ [sentence] }

/-- Modelled from the spec (body in the missing request.cpp, and the header
comment: setId only allows setting Id greater than 0): setId(Id) requires
Id to be positive and stores it; any other Id is rejected. -/
def setId (b : Batch) (Id : Int) : Option Batch :=
  if Id > 0 then some { b with Id_ := Id } else none

/-- Modelled from the spec (body in the missing request.cpp):
completeBatch(histories) requires one history per held sentence and
forwards histories[i] to sentences()[i].completeSentence, in order. -/
def completeBatch (b : Batch) (histories : List α) (heap : Heap α) : Option (Heap α) :=
  if histories.length = b.sentences_.length then
    some ((b.sentences_.zip histories).foldl
      (fun hp c => c.1.completeSentence c.2 hp) heap)
  else
    none

/-- The Batch states reachable through its public interface: default
construction, the poison factory, reset, add, and a successful setId. -/
inductive Reachable : Batch → Prop
  | new : Reachable Batch.new
  | poison : Reachable Batch.poison
  | reset (b : Batch) : Reachable b → Reachable b.reset
  | add (b : Batch) (s : RequestSentence) : Reachable b → Reachable (b.add s)
  | setId (b b' : Batch) (Id : Int) : Reachable b → b.setId Id = some b' → Reachable b'

end Batch

/-! ### Concrete sample data used to exercise the theorems -/

/-- The request of the spec's assembly example: segments [[a,b],[c]] (a=0,
b=1, c=2) with alignment ranges [(0,2),(3,4)]; exactly the result of
Request.construct 1 0 "ab c" [[0,1],[2]] [[(0,2)],[(3,4)]]. -/
def sampleRequest : Request Nat :=
  { Id_ := 1
    lineNumberBegin_ := 0
    source_ := "ab c"
    segments_ := [[0, 1], [2]]
    sourceTokenRanges_ := [[(0, 2)], [(3, 4)]]
    histories_ := [none, none]
    counter_ := 2
    response_ := none
    finalizeCount := 0 }

/-- A five-segment request, for the spec's premature-completion check
(N=5, complete 4, channel still pending). -/
def sampleRequest5 : Request Nat :=
  { Id_ := 2
    lineNumberBegin_ := 0
    source_ := "abcde"
    segments_ := [[0], [1], [2], [3], [4]]
    sourceTokenRanges_ := [[(0, 1)], [(1, 2)], [(2, 3)], [(3, 4)], [(4, 5)]]
    histories_ := [none, none, none, none, none]
    counter_ := 5
    response_ := none
    finalizeCount := 0 }

/-- A heap placing sampleRequest at every address (only address 0 is used). -/
def sampleHeap : Heap Nat := fun _ => sampleRequest

/-- A sealed batch holding both segments of the request at address 0. -/
def sampleBatch : Batch :=
  { Id_ := 1, sentences_ := [⟨0, 0⟩, ⟨1, 0⟩] }

/-- The heap after fanning the results [10, 11] out over sampleBatch. -/
def sampleHeapAfter : Heap Nat :=
  (sampleBatch.sentences_.zip [10, 11]).foldl
    (fun hp c => c.1.completeSentence c.2 hp) sampleHeap

/-- First-constructed request of the ordering example, submitted with id 3;
its insertion-sequence key (the starting line) is 0. -/
def requestA : Request Nat :=
  { sampleRequest with Id_ := 3, lineNumberBegin_ := 0 }

/-- Second-constructed request of the ordering example, submitted with id 1;
insertion-sequence key 1. -/
def requestB : Request Nat :=
  { sampleRequest with Id_ := 1, lineNumberBegin_ := 1 }

/-- Third-constructed request of the ordering example, submitted with id 2;
insertion-sequence key 2. -/
def requestC : Request Nat :=
  { sampleRequest with Id_ := 2, lineNumberBegin_ := 2 }

/-! ### Lemmas about a single completion call -/

theorem Request.processHistory_counter (r : Request α) (i : Nat) (h : α) :
    (r.processHistory i h).counter_ = r.counter_ - 1 := by
  simp only [processHistory, completeRequest]
  split <;> rfl

theorem Request.processHistory_finalizeCount (r : Request α) (i : Nat) (h : α) :
    (r.processHistory i h).finalizeCount =
      r.finalizeCount + (if r.counter_ = 1 then 1 else 0) := by
  simp only [processHistory, completeRequest]
  by_cases hc : r.counter_ - 1 = 0
  · simp [hc, show r.counter_ = 1 by omega]
  · simp [hc, show ¬ r.counter_ = 1 by omega]

theorem Request.processHistory_response_of_ne (r : Request α) (i : Nat) (h : α)
    (hne : r.counter_ ≠ 1) :
    (r.processHistory i h).response_ = r.response_ := by
  simp only [processHistory, completeRequest]
  have : ¬ (r.counter_ - 1 = 0) := by omega
  simp [this]

theorem Request.processHistory_response_of_eq (r : Request α) (i : Nat) (h : α)
    (h1 : r.counter_ = 1) :
    (r.processHistory i h).response_ =
      some { source_ := r.source_
             segments_ := r.segments_
             sourceTokenRanges_ := r.sourceTokenRanges_
             histories_ := r.histories_.set i (some h) } := by
  simp only [processHistory, completeRequest, h1]
  norm_num

theorem Request.processHistory_histories (r : Request α) (i : Nat) (h : α) :
    (r.processHistory i h).histories_ = r.histories_.set i (some h) := by
  simp only [processHistory, completeRequest]
  split <;> rfl

theorem Request.processHistory_immutable (r : Request α) (i : Nat) (h : α) :
    (r.processHistory i h).source_ = r.source_ ∧
    (r.processHistory i h).segments_ = r.segments_ ∧
    (r.processHistory i h).sourceTokenRanges_ = r.sourceTokenRanges_ := by
  simp only [processHistory, completeRequest]
  split <;> exact ⟨rfl, rfl, rfl⟩

/-! ### Lemmas about a sequence of completion calls -/

theorem Request.processAll_nil (r : Request α) : r.processAll [] = r := rfl

theorem Request.processAll_cons (r : Request α) (c : Nat × α) (calls : List (Nat × α)) :
    r.processAll (c :: calls) = (r.processHistory c.1 c.2).processAll calls := rfl

theorem Request.processAll_counter (r : Request α) (calls : List (Nat × α)) :
    (r.processAll calls).counter_ = r.counter_ - (calls.length : Int) := by
  induction calls generalizing r with
  | nil => simp [processAll]
  | cons c cs ih =>
    rw [processAll_cons, ih, processHistory_counter]
    simp only [List.length_cons]
    push_cast
    ring

theorem Request.processAll_finalizeCount (r : Request α) (calls : List (Nat × α)) :
    (r.processAll calls).finalizeCount =
      r.finalizeCount +
        (if 0 < r.counter_ ∧ r.counter_ ≤ (calls.length : Int) then 1 else 0) := by
  induction calls generalizing r with
  | nil =>
    simp only [processAll, List.foldl_nil, List.length_nil, Nat.cast_zero]
    split_ifs <;> omega
  | cons c cs ih =>
    rw [processAll_cons, ih, processHistory_finalizeCount, processHistory_counter]
    simp only [List.length_cons]
    push_cast
    split_ifs <;> omega

theorem Request.processAll_response_pending (r : Request α) (calls : List (Nat × α))
    (hpend : r.response_ = none) (hlt : (calls.length : Int) < r.counter_) :
    (r.processAll calls).response_ = none := by
  induction calls generalizing r with
  | nil => simpa [processAll] using hpend
  | cons c cs ih =>
    rw [processAll_cons]
    simp only [List.length_cons] at hlt
    apply ih
    · rw [processHistory_response_of_ne]
      · exact hpend
      · push_cast at hlt; omega
    · rw [processHistory_counter]
      push_cast at hlt ⊢
      omega

theorem Request.processAll_histories_length (r : Request α) (calls : List (Nat × α)) :
    (r.processAll calls).histories_.length = r.histories_.length := by
  induction calls generalizing r with
  | nil => rfl
  | cons c cs ih =>
    rw [processAll_cons, ih, processHistory_histories, List.length_set]

theorem Request.processAll_immutable (r : Request α) (calls : List (Nat × α)) :
    (r.processAll calls).source_ = r.source_ ∧
    (r.processAll calls).segments_ = r.segments_ ∧
    (r.processAll calls).sourceTokenRanges_ = r.sourceTokenRanges_ := by
  induction calls generalizing r with
  | nil => exact ⟨rfl, rfl, rfl⟩
  | cons c cs ih =>
    rw [processAll_cons]
    obtain ⟨h1, h2, h3⟩ := ih (r.processHistory c.1 c.2)
    obtain ⟨g1, g2, g3⟩ := processHistory_immutable r c.1 c.2
    exact ⟨h1.trans g1, h2.trans g2, h3.trans g3⟩

theorem Request.processAll_histories_not_mem (r : Request α) (calls : List (Nat × α))
    (i : Nat) (hi : i ∉ calls.map Prod.fst) :
    (r.processAll calls).histories_[i]? = r.histories_[i]? := by
  induction calls generalizing r with
  | nil => rfl
  | cons c cs ih =>
    simp only [List.map_cons, List.mem_cons, not_or] at hi
    rw [processAll_cons, ih _ hi.2, processHistory_histories,
      List.getElem?_set_ne (fun he => hi.1 he.symm)]

theorem Request.processAll_histories_mem (r : Request α) (calls : List (Nat × α))
    (i : Nat) (h : α) (hmem : (i, h) ∈ calls) (hnd : (calls.map Prod.fst).Nodup)
    (hlen : i < r.histories_.length) :
    (r.processAll calls).histories_[i]? = some (some h) := by
  induction calls generalizing r with
  | nil => cases hmem
  | cons c cs ih =>
    simp only [List.map_cons, List.nodup_cons] at hnd
    rw [processAll_cons]
    rcases List.mem_cons.mp hmem with heq | htail
    · subst heq
      rw [processAll_histories_not_mem _ _ _ hnd.1, processHistory_histories,
        List.getElem?_set_eq_of_lt _ hlen]
    · exact ih _ htail hnd.2 (by
        rw [processHistory_histories, List.length_set]; exact hlen)

theorem Request.processAll_response_fires (calls : List (Nat × α)) (r : Request α)
    (hcnt : r.counter_ = (calls.length : Int)) (hpos : calls ≠ []) :
    ∃ resp, (r.processAll calls).response_ = some resp ∧
      resp.histories_ = (r.processAll calls).histories_ ∧
      resp.source_ = r.source_ ∧
      resp.segments_ = r.segments_ ∧
      resp.sourceTokenRanges_ = r.sourceTokenRanges_ := by
  induction calls generalizing r with
  | nil => exact absurd rfl hpos
  | cons c cs ih =>
    rcases List.eq_nil_or_concat cs with hnil | hcons
    · subst hnil
      have h1 : r.counter_ = 1 := by simpa using hcnt
      refine ⟨_, processHistory_response_of_eq r c.1 c.2 h1, ?_, rfl, rfl, rfl⟩
      rw [processAll_cons, processAll_nil, processHistory_histories]
    · have hcs : cs ≠ [] := by
        rintro rfl
        simp_all
      rw [processAll_cons]
      obtain ⟨resp, hresp, hh, h1, h2, h3⟩ := ih (r.processHistory c.1 c.2) (by
        rw [processHistory_counter, hcnt]
        simp only [List.length_cons]
        push_cast
        ring) hcs
      obtain ⟨g1, g2, g3⟩ := Request.processHistory_immutable r c.1 c.2
      exact ⟨resp, hresp, hh, h1.trans g1, h2.trans g2, h3.trans g3⟩

theorem Request.construct_fields (Id : Nat) (line : Int) (s : String)
    (segments : Segments) (ranges : List TokenRanges) (r : Request α)
    (hc : Request.construct Id line s segments ranges = some r) :
    r.counter_ = (segments.length : Int) ∧ r.finalizeCount = 0 ∧
    r.response_ = none ∧ r.numSegments = segments.length ∧
    r.histories_.length = segments.length ∧
    r.source_ = s ∧ r.segments_ = segments ∧ r.sourceTokenRanges_ = ranges := by
  unfold construct at hc
  split at hc
  · cases hc
    refine ⟨rfl, rfl, rfl, rfl, ?_, rfl, rfl, rfl⟩
    simp
  · cases hc

/-! ### Lemmas about batch fan-out over the heap -/

theorem RequestSentence.completeSentence_counter (s : RequestSentence) (h : α)
    (heap : Heap α) (p : Nat) :
    ((s.completeSentence h heap) p).counter_ =
      (heap p).counter_ - (if s.request_ == p then 1 else 0) := by
  unfold completeSentence
  by_cases hp : s.request_ = p
  · subst hp
    rw [Function.update_same]
    simp [Request.processHistory_counter]
  · rw [Function.update_noteq (fun he => hp he.symm)]
    simp [hp]

theorem Heap.foldCompleteSentences_counter (l : List (RequestSentence × α))
    (heap : Heap α) (p : Nat) :
    ((l.foldl (fun hp c => c.1.completeSentence c.2 hp) heap) p).counter_ =
      (heap p).counter_ - (l.countP (fun c => c.1.request_ == p) : Int) := by
  induction l generalizing heap with
  | nil => simp
  | cons c cs ih =>
    rw [List.foldl_cons, ih, RequestSentence.completeSentence_counter,
      List.countP_cons]
    by_cases hp : c.1.request_ = p
    · simp [hp]
      ring
    · simp [hp]

/-! ### The Batch identifier invariant over reachable states -/

theorem Batch.reachable_id (b : Batch) (h : Batch.Reachable b) :
    b.Id_ = -1 ∨ 0 ≤ b.Id_ := by
  induction h with
  | new => right; rfl
  | poison => left; rfl
  | reset b _ _ => right; rfl
  | add b s _ ih => simpa [Batch.add] using ih
  | setId b b' Id _ hset _ =>
    unfold Batch.setId at hset
    split at hset
    next hpos =>
      cases hset
      exact Or.inr (le_of_lt hpos)
    next =>
      cases hset

/-! ### The claims -/

/-- Claim C4: on every Batch reachable through the public interface,
isPoison() is true iff the identifier is negative; the poison() factory
yields a Batch with isPoison() true and size() 0. -/
theorem isPoison_iff_negative_id :
    (∀ b : Batch, Batch.Reachable b → (b.isPoison = true ↔ b.Id_ < 0)) ∧
    Batch.poison.isPoison = true ∧ Batch.poison.size = 0 := by
  refine ⟨?_, rfl, rfl⟩
  intro b hb
  have hid := Batch.reachable_id b hb
  unfold Batch.isPoison
  constructor
  · intro h
    have he : b.Id_ = -1 := by simpa using h
    omega
  · intro h
    rcases hid with h1 | h1
    · simp [h1]
    · omega

/-- Witness for C4 at the concrete reachable batch Batch.poison. -/
theorem isPoison_iff_negative_id_witness :
    (Batch.poison.isPoison = true ↔ Batch.poison.Id_ < 0) ∧
    Batch.poison.size = 0 :=
  ⟨isPoison_iff_negative_id.1 Batch.poison Batch.Reachable.poison,
    isPoison_iff_negative_id.2.2⟩

/-- Claim C6: construction yields a Request whose outstanding-count equals
the number of segments, and fails when the number of segments differs from
the number of alignment ranges. -/
theorem construct_counter_and_length_check (Id : Nat) (line : Int) (s : String)
    (segments : Segments) (ranges : List TokenRanges) :
    (segments.length = ranges.length →
      ∃ r : Request α, Request.construct Id line s segments ranges = some r ∧
        r.counter_ = (r.numSegments : Int) ∧ r.numSegments = segments.length) ∧
    (segments.length ≠ ranges.length →
      Request.construct (α := α) Id line s segments ranges = none) := by
  constructor
  · intro heq
    exact ⟨{ Id_ := Id
             lineNumberBegin_ := line
             source_ := s
             segments_ := segments
             sourceTokenRanges_ := ranges
             histories_ := List.replicate segments.length none
             counter_ := (segments.length : Int)
             response_ := none
             finalizeCount := 0 },
      by unfold Request.construct; rw [if_pos heq], rfl, rfl⟩
  · intro hne
    unfold Request.construct
    rw [if_neg hne]

/-- Witness for C6: a two-segment construction succeeds with count 2; a
mismatched construction is rejected. -/
theorem construct_counter_and_length_check_witness :
    (∃ r : Request Nat,
      Request.construct 3 0 "ab c" [[0, 1], [2]] [[(0, 2)], [(3, 4)]] = some r ∧
        r.counter_ = (r.numSegments : Int) ∧ r.numSegments = 2) ∧
    Request.construct (α := Nat) 3 0 "ab c" [[0, 1], [2]] [[(0, 2)]] = none := by
  constructor
  · obtain ⟨r, h1, h2, h3⟩ :=
      (construct_counter_and_length_check (α := Nat) 3 0 "ab c"
        [[0, 1], [2]] [[(0, 2)], [(3, 4)]]).1 rfl
    exact ⟨r, h1, h2, h3.trans rfl⟩
  · exact (construct_counter_and_length_check 3 0 "ab c"
      [[0, 1], [2]] [[(0, 2)]]).2 (by decide)

/-- Claim C7: setId succeeds exactly for positive identifiers; every id
at most 0 is rejected; on success the batch keeps its sentences and moves
to the Sealed class (positive identifier). -/
theorem setId_accepts_only_positive (b : Batch) (Id : Int) :
    ((b.setId Id).isSome ↔ 0 < Id) ∧
    (Id ≤ 0 → b.setId Id = none) ∧
    (∀ c, b.setId Id = some c →
      c.Id_ = Id ∧ c.sentences_ = b.sentences_ ∧ 0 < c.Id_) := by
  unfold Batch.setId
  by_cases h : Id > 0
  · rw [if_pos h]
    refine ⟨by simpa using h, fun hle => absurd h (not_lt.mpr hle), ?_⟩
    rintro c hc
    cases hc
    exact ⟨rfl, rfl, h⟩
  · rw [if_neg h]
    exact ⟨by simpa using h, fun _ => rfl, fun c hc => by cases hc⟩

/-- Witness for C7 at a fresh (Building) batch with ids 5 and -2. -/
theorem setId_accepts_only_positive_witness :
    ((Batch.new.setId 5).isSome ↔ (0 : Int) < 5) ∧
    Batch.new.setId (-2) = none ∧
    ({ Id_ := 5, sentences_ := [] } : Batch).Id_ = 5 := by
  refine ⟨(setId_accepts_only_positive Batch.new 5).1,
    (setId_accepts_only_positive Batch.new (-2)).2.1 (by decide), ?_⟩
  exact ((setId_accepts_only_positive Batch.new 5).2.2 _ rfl).1

/-- Claim C9: segmentTokens(i) returns the token count of segment i
whenever i is in range, and hits the fatal out-of-range branch (modelled
as none) exactly when i is at or beyond numSegments(). -/
theorem segmentTokens_in_range (r : Request α) (i : Nat) :
    (∀ h : i < r.numSegments,
      r.segmentTokens i = some (r.segments_.get ⟨i, h⟩).length) ∧
    (r.numSegments ≤ i → r.segmentTokens i = none) := by
  constructor
  · intro h
    unfold Request.segmentTokens
    rw [List.getElem?_eq_getElem h]
    simp
  · intro h
    unfold Request.segmentTokens
    rw [List.getElem?_eq_none h]

/-- Witness for C9: segment 0 of the sample request has 2 tokens; index 5
is out of range. -/
theorem segmentTokens_in_range_witness :
    sampleRequest.segmentTokens 0 = some 2 ∧
    sampleRequest.segmentTokens 5 = none := by
  refine ⟨?_, (segmentTokens_in_range sampleRequest 5).2 (by decide)⟩
  have h := (segmentTokens_in_range sampleRequest 0).1 (by decide)
  simpa using h

/-- Claim C10: reset() yields the Empty state (no sentences, identifier 0),
and the default constructor produces exactly that state: it invokes reset,
so a fresh Batch has no sentences and is not poison. -/
theorem reset_yields_empty_state :
    (∀ b : Batch, b.reset.size = 0 ∧ b.reset.Id_ = 0) ∧
    Batch.new.size = 0 ∧ Batch.new.Id_ = 0 ∧ Batch.new.isPoison = false ∧
    (∀ b : Batch, Batch.new = b.reset) :=
  ⟨fun _ => ⟨rfl, rfl⟩, rfl, rfl, rfl, fun _ => rfl⟩

/-- Claim C1 counterexample: a Request constructed with N = 0 segments.
Completing each of its zero distinct indices means making no call at all,
after which finalize has run zero times, not exactly once, and the claim
as stated fails at this input. -/
theorem finalize_skipped_for_empty_request :
    ∃ r : Request Nat, Request.construct 7 0 "" [] [] = some r ∧
      r.numSegments = 0 ∧
      (List.map Prod.fst ([] : List (Nat × Nat))).Perm (List.range r.numSegments) ∧
      (r.processAll ([] : List (Nat × Nat))).finalizeCount = 0 ∧
      ¬ (r.processAll ([] : List (Nat × Nat))).finalizeCount = 1 := by
  exact ⟨_, rfl, rfl, List.Perm.refl _, rfl, by decide⟩

/-- Claim C1 (amended: N at least 1): for every Request constructed with N
segments, N positive, running completeSegment (processHistory) once for
each of the N distinct indices in any order makes finalize (completeRequest)
run exactly once, and it runs on the final call, the one whose decrement
observes the outstanding-count reach zero: after any proper prefix of the
calls it has not yet run. -/
theorem finalize_exactly_once (Id : Nat) (line : Int) (s : String)
    (segments : Segments) (ranges : List TokenRanges) (r : Request α)
    (hc : Request.construct Id line s segments ranges = some r)
    (hN : 0 < r.numSegments) (calls : List (Nat × α))
    (hperm : (calls.map Prod.fst).Perm (List.range r.numSegments)) :
    (r.processAll calls).finalizeCount = 1 ∧
    ∀ pre suf, calls = pre ++ suf → suf ≠ [] →
      (r.processAll pre).finalizeCount = 0 := by
  obtain ⟨hcnt, hfc, -, hns, -, -, -, -⟩ :=
    Request.construct_fields Id line s segments ranges r hc
  have hlen : calls.length = r.numSegments := by
    simpa using hperm.length_eq
  rw [hns] at hlen hN
  constructor
  · rw [Request.processAll_finalizeCount, hfc, hcnt, hlen]
    rw [if_pos ⟨by exact_mod_cast hN, le_refl _⟩]
  · intro pre suf hsplit hne
    rw [Request.processAll_finalizeCount, hfc, hcnt, if_neg]
    rintro ⟨-, h2⟩
    have hadd : pre.length + suf.length = calls.length := by
      rw [hsplit, List.length_append]
    have hs : 0 < suf.length := List.length_pos.mpr hne
    have h2' : segments.length ≤ pre.length := by exact_mod_cast h2
    omega

/-- Witness for the amended C1 on the two-segment sample request,
completing segment 1 then segment 0; the one-call prefix has not
finalized. -/
theorem finalize_exactly_once_witness :
    (sampleRequest.processAll [(1, 11), (0, 10)]).finalizeCount = 1 ∧
    (sampleRequest.processAll [(1, 11)]).finalizeCount = 0 := by
  obtain ⟨h1, h2⟩ := finalize_exactly_once 1 0 "ab c" [[0, 1], [2]]
    [[(0, 2)], [(3, 4)]] sampleRequest rfl (by decide)
    [(1, 11), (0, 10)] (by decide)
  exact ⟨h1, h2 [(1, 11)] [(0, 10)] rfl (by decide)⟩

/-- Claim C2: finalize never runs while fewer than N of the N segments have
been completed: after completing any proper subset of the distinct segment
indices, the response promise is still pending and completeRequest has not
run. -/
theorem no_premature_finalize (Id : Nat) (line : Int) (s : String)
    (segments : Segments) (ranges : List TokenRanges) (r : Request α)
    (hc : Request.construct Id line s segments ranges = some r)
    (calls : List (Nat × α))
    (_hnd : (calls.map Prod.fst).Nodup)
    (_hmem : ∀ i ∈ calls.map Prod.fst, i < r.numSegments)
    (hlt : calls.length < r.numSegments) :
    (r.processAll calls).response_ = none ∧
    (r.processAll calls).finalizeCount = 0 := by
  obtain ⟨hcnt, hfc, hresp, hns, -, -, -, -⟩ :=
    Request.construct_fields Id line s segments ranges r hc
  rw [hns] at hlt
  constructor
  · apply Request.processAll_response_pending _ _ hresp
    rw [hcnt]
    exact_mod_cast hlt
  · rw [Request.processAll_finalizeCount, hfc, hcnt, if_neg]
    rintro ⟨-, h2⟩
    have h2' : segments.length ≤ calls.length := by exact_mod_cast h2
    omega

/-- Witness for C2: the five-segment sample request with four of its five
segments completed; the channel is still pending and finalize has not
run. -/
theorem no_premature_finalize_witness :
    (sampleRequest5.processAll [(0, 1), (1, 2), (2, 3), (3, 4)]).response_ = none ∧
    (sampleRequest5.processAll [(0, 1), (1, 2), (2, 3), (3, 4)]).finalizeCount = 0 :=
  no_premature_finalize 2 0 "abcde" [[0], [1], [2], [3], [4]]
    [[(0, 1)], [(1, 2)], [(2, 3)], [(3, 4)], [(4, 5)]] sampleRequest5 rfl
    [(0, 1), (1, 2), (2, 3), (3, 4)] (by decide) (by decide) (by decide)

/-- Claim C3: the response assembled on completion lists the per-segment
results in stored segment-index order, whatever order the completion calls
arrived in: completing every index i with result f i, in any order, yields
a response whose slot i holds f i. -/
theorem response_assembly_in_segment_order (Id : Nat) (line : Int) (s : String)
    (segments : Segments) (ranges : List TokenRanges) (r : Request α)
    (hc : Request.construct Id line s segments ranges = some r)
    (hN : 0 < r.numSegments) (f : Nat → α) (calls : List (Nat × α))
    (hperm : calls.Perm ((List.range r.numSegments).map (fun i => (i, f i)))) :
    ∃ resp, (r.processAll calls).response_ = some resp ∧
      resp.histories_ = (List.range r.numSegments).map (fun i => some (f i)) ∧
      resp.source_ = s ∧ resp.segments_ = segments ∧
      resp.sourceTokenRanges_ = ranges := by
  obtain ⟨hcnt, -, -, hns, hhl, hsrc, hsegs, hrngs⟩ :=
    Request.construct_fields Id line s segments ranges r hc
  have hlen : calls.length = r.numSegments := by
    simpa using hperm.length_eq
  have hne : calls ≠ [] := by
    intro h
    rw [h] at hlen
    simp at hlen
    omega
  obtain ⟨resp, h1, h2, h3, h4, h5⟩ :=
    Request.processAll_response_fires calls r (by rw [hcnt, hlen, hns]) hne
  refine ⟨resp, h1, ?_, h3.trans hsrc, h4.trans hsegs, h5.trans hrngs⟩
  rw [h2]
  have hndup : (calls.map Prod.fst).Nodup := by
    have hp : (calls.map Prod.fst).Perm
        (((List.range r.numSegments).map (fun i => (i, f i))).map Prod.fst) :=
      hperm.map Prod.fst
    rw [List.map_map] at hp
    refine hp.nodup_iff.mpr ?_
    have hid : (Prod.fst ∘ fun i : Nat => (i, f i)) = id := rfl
    rw [hid, List.map_id]
    exact List.nodup_range _
  apply List.ext_getElem?_iff.mpr
  intro i
  by_cases hi : i < r.numSegments
  · have hmem : (i, f i) ∈ calls := by
      rw [hperm.mem_iff]
      exact List.mem_map.mpr ⟨i, List.mem_range.mpr hi, rfl⟩
    rw [Request.processAll_histories_mem r calls i (f i) hmem hndup
      (by rw [hhl, ← hns]; exact hi)]
    rw [List.getElem?_map, List.getElem?_range hi]
    rfl
  · rw [List.getElem?_eq_none, List.getElem?_eq_none]
    · simpa using not_lt.mp hi
    · rw [Request.processAll_histories_length, hhl, ← hns]
      exact not_lt.mp hi

/-- Witness for C3: the spec example, segments [[a,b],[c]] with ranges
[(0,2),(3,4)], completed as segment 1 with R1 = 11 then segment 0 with
R0 = 10; the response slots come out ordered [R0, R1]. -/
theorem response_assembly_in_segment_order_witness :
    ∃ resp : Response Nat,
      (sampleRequest.processAll [(1, 11), (0, 10)]).response_ = some resp ∧
      resp.histories_ = [some 10, some 11] := by
  obtain ⟨resp, h1, h2, -, -, -⟩ :=
    response_assembly_in_segment_order 1 0 "ab c" [[0, 1], [2]]
      [[(0, 2)], [(3, 4)]] sampleRequest rfl (by decide)
      (fun i => 10 + i) [(1, 11), (0, 10)] (by decide)
  exact ⟨resp, h1, h2.trans (by decide)⟩

/-- Claim C5: completeBatch(results) succeeds exactly when results has one
entry per held sentence, and afterwards the Request at every heap address
has had its outstanding-count decremented exactly once per sentence of the
batch that references it. -/
theorem completeBatch_decrements_per_segment (b : Batch) (results : List α)
    (heap : Heap α) :
    ((b.completeBatch results heap).isSome ↔
      results.length = b.sentences.length) ∧
    (∀ g, b.completeBatch results heap = some g →
      ∀ p, (g p).counter_ =
        (heap p).counter_ -
          (b.sentences_.countP (fun t => t.request_ == p) : Int)) := by
  constructor
  · unfold Batch.completeBatch
    split
    next hlen => simpa [Batch.sentences] using hlen
    next hlen => simpa [Batch.sentences] using hlen
  · intro g hc p
    unfold Batch.completeBatch at hc
    split at hc
    next hlen =>
      cases hc
      rw [Heap.foldCompleteSentences_counter]
      have hz : (b.sentences_.zip results).map Prod.fst = b.sentences_ :=
        List.map_fst_zip _ _ (le_of_eq hlen.symm)
      have hcp : (b.sentences_.zip results).countP (fun c => c.1.request_ == p) =
          b.sentences_.countP (fun t => t.request_ == p) := by
        conv_rhs => rw [← hz]
        rw [List.countP_map]
        rfl
      rw [hcp]
    next => cases hc

/-- Witness for C5: the sample batch holds both segments of the request at
address 0; fanning out two results decrements that request's count by
two, and a mismatched result list is rejected. -/
theorem completeBatch_decrements_per_segment_witness :
    ((sampleBatch.completeBatch [10, 11] sampleHeap).isSome ↔
      ([10, 11] : List Nat).length = sampleBatch.sentences.length) ∧
    (sampleHeapAfter 0).counter_ =
      (sampleHeap 0).counter_ -
        (sampleBatch.sentences_.countP (fun t => t.request_ == 0) : Int) :=
  ⟨(completeBatch_decrements_per_segment sampleBatch [10, 11] sampleHeap).1,
    (completeBatch_decrements_per_segment sampleBatch [10, 11] sampleHeap).2
      sampleHeapAfter rfl 0⟩

/-- Claim C8: the Request order is primarily by submission id with the
stable insertion-sequence key (the starting line) breaking ties, making it
irreflexive, transitive and total on the (id, line) key; sorting the
requests constructed with ids 3, 1, 2 yields id order 1, 2, 3; and the
RequestSentence order delegates to the owning Requests' order, comparing
by segment index exactly when the owning request is the same. -/
theorem request_order_total_and_sentence_rule :
    (∀ a : Request α, Request.lt a a = false) ∧
    (∀ a b c : Request α,
      Request.lt a b = true → Request.lt b c = true → Request.lt a c = true) ∧
    (∀ a b : Request α, Request.lt a b = true ∨ Request.lt b a = true ∨
      (a.Id_ = b.Id_ ∧ a.lineNumberBegin_ = b.lineNumberBegin_)) ∧
    List.insertionSort (fun a b => Request.lt a b = true)
      [requestA, requestB, requestC] = [requestB, requestC, requestA] ∧
    (∀ (g : Heap α) (s t : RequestSentence), s.request_ = t.request_ →
      RequestSentence.lt g s t = decide (s.index_ < t.index_)) ∧
    (∀ (g : Heap α) (s t : RequestSentence), s.request_ ≠ t.request_ →
      RequestSentence.lt g s t = Request.lt (g s.request_) (g t.request_)) := by
  refine ⟨?_, ?_, ?_, ?_, ?_, ?_⟩
  · intro a
    simp [Request.lt]
  · intro a b c hab hbc
    simp only [Request.lt, Bool.or_eq_true, Bool.and_eq_true,
      decide_eq_true_eq, beq_iff_eq] at hab hbc ⊢
    omega
  · intro a b
    simp only [Request.lt, Bool.or_eq_true, Bool.and_eq_true,
      decide_eq_true_eq, beq_iff_eq]
    omega
  · decide
  · intro g s t h
    simp [RequestSentence.lt, h]
  · intro g s t h
    simp [RequestSentence.lt, h]

/-- Witness for C8 at concrete requests and sentence views: transitivity
chained over the three sample requests and the delegation rules at views
into addresses 0 and 1. -/
theorem request_order_total_and_sentence_rule_witness :
    Request.lt requestB requestA = true ∧
    RequestSentence.lt sampleHeap ⟨0, 0⟩ ⟨1, 0⟩ = decide ((0 : Nat) < 1) ∧
    RequestSentence.lt sampleHeap ⟨0, 0⟩ ⟨0, 1⟩ =
      Request.lt (sampleHeap 0) (sampleHeap 1) := by
  refine ⟨?_, ?_, ?_⟩
  · exact request_order_total_and_sentence_rule.2.1 requestB requestC requestA
      (by decide) (by decide)
  · exact request_order_total_and_sentence_rule.2.2.2.2.1 sampleHeap
      ⟨0, 0⟩ ⟨1, 0⟩ rfl
  · exact request_order_total_and_sentence_rule.2.2.2.2.2 sampleHeap
      ⟨0, 0⟩ ⟨0, 1⟩ (by decide)

end Bergamot
